import Mathlib

/-!
Verification of `src/torchdynamo/testing.py`: a shallow embedding of its
value model and of the functions `same`, `reduce_to_scalar_loss`,
`clone_me`, `format_speedup`, `debug_insert_nops` and the class
`CompileCounter`, together with theorems settling the specification
claims about them.
-/

namespace TorchdynamoTesting

/-- Python exceptions that the functions in testing.py can raise. -/
inductive PyErr where
  | assertionError (msg : String)
  | runtimeError (msg : String)
  | notImplementedError (msg : String)
  | keyError (key : String)
  | attributeError (attr : String)
deriving Repr, DecidableEq

/-- A torch.Tensor modelled as its flattened list of scalar values
(the tensor cases of testing.py only ever use the flattened values). -/
structure Tensor where
  data : List ℚ
deriving Repr, DecidableEq

/-- The Python values that `same` and `reduce_to_scalar_loss` dispatch on:
lists, tuples, torch.nn.ParameterList, torch.Size, dicts, tensors, the
scalar types of line 94 (int, float, bool, None, torch.device), and
generic objects carrying a type name and an attribute dict (the ML output
types of lines 96-106 and any unsupported type). -/
inductive PyVal where
  | list (xs : List PyVal)
  | tuple (xs : List PyVal)
  | paramList (xs : List PyVal)
  | size (xs : List PyVal)
  | dict (entries : List (String × PyVal))
  | tensor (t : Tensor)
  | int (n : Int)
  | float (q : ℚ)
  | bool (b : Bool)
  | none
  | device (d : String)
  | obj (tyName : String) (attrs : List (String × PyVal))

/-- Numeric value of a Python scalar, for `==` (Python compares int, float
and bool numerically across types; True == 1). -/
def pyNum : PyVal → Option ℚ
  | .int n => some (n : ℚ)
  | .float q => some q
  | .bool b => some (if b then 1 else 0)
  | _ => Option.none

/-- Python `a == b` restricted to the scalar operands reachable at
testing.py line 95 (a is int, float, bool, None or torch.device; b is
arbitrary; cross-type comparisons of distinct kinds are False). -/
def pyEq (a b : PyVal) : Bool :=
  match pyNum a, pyNum b with
  | some x, some y => x == y
  | _, _ =>
    match a, b with
    | .none, .none => true
    | .device d, .device e => d == e
    | _, _ => false

/-- The tuple of ML output type names accepted by `same`
(testing.py lines 96-106). -/
def mlTypeNames : List String :=
  ["MaskedLMOutput", "Seq2SeqLMOutput", "CausalLMOutputWithCrossAttentions",
   "LongformerMaskedLMOutput", "Instances", "SquashedNormal", "Boxes",
   "Normal", "TanhTransform"]

/-- `d.keys()` of a dict modelled as an entry list. -/
def dictKeys (es : List (String × PyVal)) : List String := es.map Prod.fst

/-- `set(ka) == set(kb)`: the two key lists have the same members. -/
def keySetEq (ka kb : List String) : Bool :=
  ka.all (fun k => kb.contains k) && kb.all (fun k => ka.contains k)

mutual

/-- Embedding of `same` (testing.py lines 68-110). Sequence case:
b must be a list or tuple (assert, line 71); result is
`len(a) == len(b) and all(same(ai, bi) for ai, bi in zip(a, b))`.
Dict case: b must be a dict with equal key set (asserts, lines 74-77),
then each key is compared, returning False on the first mismatch.
Tensor case: the tolerance comparison is only printed; the function
returns True unconditionally (line 93, `return True  temporary set`).
Scalar case: Python `==`. ML output objects: type identity assert then
attribute-wise comparison. Anything else: RuntimeError. -/
def same (a b : PyVal) : Except PyErr Bool :=
  match a with
  | .list as | .tuple as | .paramList as | .size as =>
    match b with
    | .list bs | .tuple bs | .size bs =>
      if as.length = bs.length then sameAll as bs else pure false
    | _ => .error (.assertionError "type mismatch")
  | .dict aes =>
    match b with
    | .dict bes =>
      if keySetEq (dictKeys aes) (dictKeys bes) then sameDict aes bes
      else .error (.assertionError "keys mismatch")
    | _ => .error (.assertionError "b is not a dict")
  | .tensor _ =>
    match b with
    | .tensor _ => pure true
    | _ => .error (.assertionError "b is not a tensor")
  | .int _ | .float _ | .bool _ | .none | .device _ => pure (pyEq a b)
  | .obj an aattrs =>
    if mlTypeNames.contains an then
      match b with
      | .obj bn battrs =>
        if an = bn then sameAttrs aattrs battrs
        else .error (.assertionError "type of a is not type of b")
      | _ => .error (.assertionError "type of a is not type of b")
    else .error (.runtimeError "unsupported type")

/-- `all(same(ai, bi) for ai, bi in zip(a, b))`: zip truncates at the
shorter list, the generator is evaluated left to right, stops at the
first False, and exceptions propagate. -/
def sameAll : List PyVal → List PyVal → Except PyErr Bool
  | [], _ => pure true
  | _ :: _, [] => pure true
  | a :: as, b :: bs => do
    let r ← same a b
    if r then sameAll as bs else pure false

/-- The dict loop of lines 78-82: for each key of a (in order), compare
`a[k]` with `b[k]`; return False on the first mismatch, else True.
A key of a missing from b would raise KeyError in Python. -/
def sameDict : List (String × PyVal) → List (String × PyVal) → Except PyErr Bool
  | [], _ => pure true
  | (k, va) :: rest, bes =>
    match bes.lookup k with
    | some vb => do
      let r ← same va vb
      if r then sameDict rest bes else pure false
    | Option.none => .error (.keyError k)

/-- Line 108: `all(same(getattr(a, key), getattr(b, key)) for key in
a.__dict__.keys())`; a missing attribute on b raises AttributeError. -/
def sameAttrs : List (String × PyVal) → List (String × PyVal) → Except PyErr Bool
  | [], _ => pure true
  | (k, va) :: rest, battrs =>
    match battrs.lookup k with
    | some vb => do
      let r ← same va vb
      if r then sameAttrs rest battrs else pure false
    | Option.none => .error (.attributeError k)

end

/-- The elements of a value matched by line 70's
`isinstance(a, (list, tuple, torch.nn.ParameterList, torch.Size))`. -/
def seqElems : PyVal → Option (List PyVal)
  | .list xs | .tuple xs | .paramList xs | .size xs => some xs
  | _ => Option.none

/-- The elements of a value matched by line 71's
`isinstance(b, (list, tuple))`; torch.Size is a tuple subclass, so a Size
value also matches. -/
def listTupleElems : PyVal → Option (List PyVal)
  | .list xs | .tuple xs | .size xs => some xs
  | _ => Option.none

mutual

/-- Fuel-indexed evaluator of the recursion of `same`: it performs exactly
the recursion of testing.py lines 68-110, but returns `Option.none` when
the recursion has not bottomed out within `fuel` nesting levels. Used to
state that the recursion of `same` terminates on every finite value. -/
def sameF : Nat → PyVal → PyVal → Option (Except PyErr Bool)
  | 0, _, _ => Option.none
  | n + 1, a, b =>
    match a with
    | .list as | .tuple as | .paramList as | .size as =>
      match b with
      | .list bs | .tuple bs | .size bs =>
        if as.length = bs.length then sameAllF n as bs else some (pure false)
      | _ => some (.error (.assertionError "type mismatch"))
    | .dict aes =>
      match b with
      | .dict bes =>
        if keySetEq (dictKeys aes) (dictKeys bes) then sameDictF n aes bes
        else some (.error (.assertionError "keys mismatch"))
      | _ => some (.error (.assertionError "b is not a dict"))
    | .tensor _ =>
      match b with
      | .tensor _ => some (pure true)
      | _ => some (.error (.assertionError "b is not a tensor"))
    | .int _ | .float _ | .bool _ | .none | .device _ => some (pure (pyEq a b))
    | .obj an aattrs =>
      if mlTypeNames.contains an then
        match b with
        | .obj bn battrs =>
          if an = bn then sameAttrsF n aattrs battrs
          else some (.error (.assertionError "type of a is not type of b"))
        | _ => some (.error (.assertionError "type of a is not type of b"))
      else some (.error (.runtimeError "unsupported type"))
termination_by n a b => (n, sizeOf a)

/-- Fuel-indexed mirror of `sameAll`. -/
def sameAllF : Nat → List PyVal → List PyVal → Option (Except PyErr Bool)
  | _, [], _ => some (pure true)
  | _, _ :: _, [] => some (pure true)
  | n, a :: as, b :: bs =>
    match sameF n a b with
    | some (.ok r) => if r then sameAllF n as bs else some (pure false)
    | some (.error e) => some (.error e)
    | Option.none => Option.none
termination_by n as bs => (n, sizeOf as)

/-- Fuel-indexed mirror of `sameDict`. -/
def sameDictF : Nat → List (String × PyVal) → List (String × PyVal) →
    Option (Except PyErr Bool)
  | _, [], _ => some (pure true)
  | n, (k, va) :: rest, bes =>
    match bes.lookup k with
    | some vb =>
      match sameF n va vb with
      | some (.ok r) => if r then sameDictF n rest bes else some (pure false)
      | some (.error e) => some (.error e)
      | Option.none => Option.none
    | Option.none => some (.error (.keyError k))
termination_by n l bes => (n, sizeOf l)

/-- Fuel-indexed mirror of `sameAttrs`. -/
def sameAttrsF : Nat → List (String × PyVal) → List (String × PyVal) →
    Option (Except PyErr Bool)
  | _, [], _ => some (pure true)
  | n, (k, va) :: rest, battrs =>
    match battrs.lookup k with
    | some vb =>
      match sameF n va vb with
      | some (.ok r) => if r then sameAttrsF n rest battrs else some (pure false)
      | some (.error e) => some (.error e)
      | Option.none => Option.none
    | Option.none => some (.error (.attributeError k))
termination_by n l battrs => (n, sizeOf l)

end

/-- A value found by lookup in an entry list is structurally smaller than
the list. -/
theorem sizeOf_lookup_lt {l : List (String × PyVal)} {k : String} {v : PyVal}
    (h : l.lookup k = some v) : sizeOf v < sizeOf l := by
  induction l with
  | nil => simp [List.lookup] at h
  | cons e rest ih =>
    obtain ⟨a, b⟩ := e
    simp only [List.lookup] at h
    split at h
    · cases h
      simp only [List.cons.sizeOf_spec, Prod.mk.sizeOf_spec]
      omega
    · have := ih h
      simp only [List.cons.sizeOf_spec, Prod.mk.sizeOf_spec]
      omega

mutual

/-- Embedding of `reduce_to_scalar_loss` (testing.py lines 45-61):
tensors are summed, tuples and dicts are reduced elementwise and summed,
the three LM output types are reduced through their `logits` attribute,
SquashedNormal through its `mean` attribute, and everything else raises
NotImplementedError. -/
def reduce_to_scalar_loss : PyVal → Except PyErr ℚ
  | .tensor t => pure t.data.sum
  | .tuple xs | .size xs => do
      let vs ← reduceList xs
      pure vs.sum
  | .obj n attrs =>
      if n = "MaskedLMOutput" ∨ n = "Seq2SeqLMOutput" ∨
          n = "CausalLMOutputWithCrossAttentions" then
        match h : attrs.lookup "logits" with
        | some v => reduce_to_scalar_loss v
        | Option.none => .error (.attributeError "logits")
      else if n = "SquashedNormal" then
        match h : attrs.lookup "mean" with
        | some v => reduce_to_scalar_loss v
        | Option.none => .error (.attributeError "mean")
      else .error (.notImplementedError "do not know how to reduce")
  | .dict es => do
      let vs ← reduceVals es
      pure vs.sum
  | .list _ | .paramList _ | .int _ | .float _ | .bool _ | .none
  | .device _ =>
      .error (.notImplementedError "do not know how to reduce")
termination_by v => sizeOf v
decreasing_by
  all_goals simp_wf
  all_goals (have hlt := sizeOf_lookup_lt h; omega)

/-- `[reduce_to_scalar_loss(x) for x in out]`: the comprehension is fully
evaluated left to right, the first exception propagating. -/
def reduceList : List PyVal → Except PyErr (List ℚ)
  | [] => pure []
  | x :: xs => do
      let v ← reduce_to_scalar_loss x
      let vs ← reduceList xs
      pure (v :: vs)
termination_by xs => sizeOf xs
decreasing_by
  all_goals simp_wf
  all_goals omega

/-- `[reduce_to_scalar_loss(value) for value in out.values()]`. -/
def reduceVals : List (String × PyVal) → Except PyErr (List ℚ)
  | [] => pure []
  | (_, x) :: xs => do
      let v ← reduce_to_scalar_loss x
      let vs ← reduceVals xs
      pure (v :: vs)
termination_by xs => sizeOf xs
decreasing_by
  all_goals simp_wf
  all_goals omega

end

/-- Model of `torch.allclose(a, b, atol, rtol)` as invoked (commented out
and in the diagnostic print) at testing.py lines 85 and 87: the tensors
match elementwise up to `atol + rtol * abs(b)`. -/
def allclose (a b : Tensor) (atol rtol : ℚ) : Bool :=
  a.data.length == b.data.length &&
  (a.data.zip b.data).all (fun p => decide (|p.1 - p.2| ≤ atol + rtol * |p.2|))

/-- A tensor as seen by `clone_me`: its values, its `requires_grad` flag
and whether it carries autograd history (a `grad_fn`). -/
structure GradTensor where
  values : List ℚ
  requires_grad : Bool
  has_grad_fn : Bool
deriving Repr, DecidableEq

/-- `x.detach()`: same values, no autograd history, `requires_grad` off. -/
def GradTensor.detach (t : GradTensor) : GradTensor :=
  { t with requires_grad := false, has_grad_fn := false }

/-- `x.clone()`: a copy with the same values and flags. -/
def GradTensor.clone (t : GradTensor) : GradTensor := t

/-- `x.requires_grad_(b)`: set the `requires_grad` flag in place. -/
def GradTensor.set_requires_grad (t : GradTensor) (b : Bool) : GradTensor :=
  { t with requires_grad := b }

/-- Embedding of `clone_me` (testing.py lines 22-25): None maps to None,
otherwise `x.detach().clone().requires_grad_(x.requires_grad)`. -/
def clone_me : Option GradTensor → Option GradTensor
  | Option.none => Option.none
  | some x => some ((x.detach.clone).set_requires_grad x.requires_grad)

/-- Python `pat in hay` on strings: substring test. -/
def strContains (hay pat : String) : Bool := decide (List.IsInfix pat.data hay.data)

/-- A node of a torch.fx graph, carrying its `op` string. -/
structure Node where
  op : String
deriving Repr, DecidableEq

/-- A torch.fx graph: its node list. -/
structure FxGraph where
  nodes : List Node
deriving Repr, DecidableEq

/-- A torch.fx GraphModule: a graph and a forward function (opaque to
the counter, so modelled as a value of an arbitrary type F). -/
structure GraphModule (F : Type) where
  graph : FxGraph
  forward : F

/-- The state of a CompileCounter instance (testing.py lines 143-153). -/
structure CompileCounter where
  frame_count : Nat
  op_count : Nat
deriving Repr, DecidableEq

/-- `CompileCounter.__init__`: both counters start at 0. -/
def CompileCounter.init : CompileCounter :=
  { frame_count := 0, op_count := 0 }

/-- `CompileCounter.__call__(gm)`: increment `frame_count`, walk the graph
nodes incrementing `op_count` for each node whose op contains "call",
and return `gm.forward`. -/
def CompileCounter.call {F : Type} (self : CompileCounter) (gm : GraphModule F) :
    CompileCounter × F :=
  let s1 : CompileCounter := { self with frame_count := self.frame_count + 1 }
  let s2 := gm.graph.nodes.foldl
    (fun s node =>
      if strContains node.op "call" then { s with op_count := s.op_count + 1 } else s)
    s1
  (s2, gm.forward)

/-- A fresh CompileCounter called once per module of the list. -/
def runCompileCounter {F : Type} (gms : List (GraphModule F)) : CompileCounter :=
  gms.foldl (fun s gm => (s.call gm).1) CompileCounter.init

/-- Round to the nearest integer, ties to even: the rounding of Python
float formatting. -/
def pyRound (x : ℚ) : Int :=
  let f := Rat.floor x
  if x - f < 1/2 then f
  else if x - f > 1/2 then f + 1
  else if f % 2 = 0 then f else f + 1

/-- The `prec` digits after the decimal point for the scaled value `k`,
most significant first, zero padded to exactly `prec` characters. -/
def fracDigits : Nat → Nat → List Char
  | _, 0 => []
  | k, n + 1 => fracDigits (k / 10) n ++ [Nat.digitChar (k % 10)]

/-- Character list of Python fixed point formatting `format(x, ".Nf")`:
scale by 10 ^ prec, round half to even, print sign, integer part, dot and
zero-padded fraction digits. -/
def pyFormatChars (x : ℚ) (prec : Nat) : List Char :=
  let scaled := pyRound (x * ((10 : ℚ) ^ prec))
  let m := scaled.natAbs
  let sign := if scaled < 0 then ['-'] else ([] : List Char)
  if prec = 0 then sign ++ Nat.toDigits 10 (m / 10 ^ prec)
  else sign ++ Nat.toDigits 10 (m / 10 ^ prec) ++ ['.'] ++ fracDigits (m % 10 ^ prec) prec

/-- Python `f"{x:.<prec>f}"` as a string. -/
def pyFormatF (x : ℚ) (prec : Nat) : String := String.mk (pyFormatChars x prec)

/-- Embedding of `format_speedup` (testing.py lines 212-217). In the
source `is_correct` defaults to True and `pvalue_threshold` to 0.1. -/
def format_speedup (speedup pvalue : ℚ) (is_correct : Bool) (pvalue_threshold : ℚ) :
    String :=
  if is_correct = false then "ERROR"
  else if pvalue > pvalue_threshold then pyFormatF speedup 3 ++ "x SAME"
  else pyFormatF speedup 3 ++ "x p=" ++ pyFormatF pvalue 2

/-- The string s ends in the string t. -/
def strEndsIn (s t : String) : Prop := t.data.IsSuffix s.data

/-- A bytecode instruction, carrying its opname. -/
structure Instruction where
  opname : String
deriving Repr, DecidableEq

/-- Modelled from the spec: `create_instruction` of
bytecode_transformation.py (imported by testing.py but not under src)
builds an instruction with the given opname. -/
def create_instruction (name : String) : Instruction := { opname := name }

/-- A Python code object as far as `debug_insert_nops` inspects it: its
instruction list and whether its flags mark it as a generator. -/
structure CodeObject where
  instructions : List Instruction
  generator_flag : Bool
deriving Repr, DecidableEq

/-- Modelled from the spec: `is_generator` of bytecode_transformation.py
(not under src) tests whether a code object is a generator. -/
def is_generator (c : CodeObject) : Bool := c.generator_flag

/-- Modelled from the spec: `transform_code_object` of
bytecode_transformation.py (not under src) rebuilds the code object with
the transformation applied to its instruction list. `debug_checks`, also
not under src, only asserts round-trip properties and is modelled as
having no effect. -/
def transform_code_object (c : CodeObject)
    (t : List Instruction → List Instruction) : CodeObject :=
  { c with instructions := t c.instructions }

/-- A Python frame as far as `debug_insert_nops` inspects it. -/
structure Frame where
  f_code : CodeObject
deriving Repr, DecidableEq

/-- `GuardedCode` of guards.py: wraps the transformed code object. -/
structure GuardedCode where
  code : CodeObject
deriving Repr, DecidableEq

/-- The inner `insert_nops` transformation of `debug_insert_nops`
(testing.py lines 130-132): two NOPs inserted at position 0. -/
def insert_nops (instructions : List Instruction) : List Instruction :=
  create_instruction "NOP" :: (create_instruction "NOP" :: instructions)

/-- Embedding of `debug_insert_nops` (testing.py lines 127-140): None for
generator frames, otherwise a GuardedCode wrapping the transformed code.
`cache_size` is accepted and ignored, as in the source. -/
def debug_insert_nops (frame : Frame) (cache_size : Nat) : Option GuardedCode :=
  if is_generator frame.f_code then Option.none
  else some { code := transform_code_object frame.f_code insert_nops }

/-! Helper lemmas. -/

/-- One `CompileCounter` call, as a closed form of its state update. -/
theorem compileCounter_call_eq {F : Type} (s : CompileCounter) (gm : GraphModule F) :
    CompileCounter.call s gm =
      ({ frame_count := s.frame_count + 1,
         op_count := s.op_count +
           gm.graph.nodes.countP (fun node => strContains node.op "call") },
       gm.forward) := by
  have aux : ∀ (nodes : List Node) (t : CompileCounter),
      nodes.foldl
        (fun s node =>
          if strContains node.op "call" then { s with op_count := s.op_count + 1 }
          else s) t =
        { t with op_count := t.op_count +
            nodes.countP (fun node => strContains node.op "call") } := by
    intro nodes
    induction nodes with
    | nil => intro t; rfl
    | cons nd rest ih =>
      intro t
      by_cases hc : strContains nd.op "call"
      · simp [hc, ih, List.countP_cons]
        omega
      · simp [hc, ih, List.countP_cons]
  simp [CompileCounter.call, aux]

/-- Folding `CompileCounter` calls over a module list, in closed form. -/
theorem compileCounter_fold_eq {F : Type} (gms : List (GraphModule F)) :
    ∀ s : CompileCounter,
      gms.foldl (fun s gm => (CompileCounter.call s gm).1) s =
        { frame_count := s.frame_count + gms.length,
          op_count := s.op_count +
            (gms.map (fun g => g.graph.nodes.countP
              (fun node => strContains node.op "call"))).sum } := by
  induction gms with
  | nil => intro s; rfl
  | cons gm rest ih =>
    intro s
    have hstep : (CompileCounter.call s gm).1 =
        { frame_count := s.frame_count + 1,
          op_count := s.op_count +
            gm.graph.nodes.countP (fun node => strContains node.op "call") } := by
      rw [compileCounter_call_eq]
    rw [List.foldl_cons]
    show List.foldl _ ((CompileCounter.call s gm).1) rest = _
    rw [hstep, ih]
    simp [CompileCounter.mk.injEq]
    omega

/-- `sameAll` returns ok True exactly when `same` returns ok True on every
zipped pair (zip truncates at the shorter list). -/
theorem sameAll_ok_true_iff : ∀ (as bs : List PyVal),
    (sameAll as bs = .ok true ↔ ∀ p ∈ as.zip bs, same p.1 p.2 = .ok true) := by
  intro as
  induction as with
  | nil => intro bs; simp [sameAll, Pure.pure, Except.pure]
  | cons a as ih =>
    intro bs
    cases bs with
    | nil => simp [sameAll, Pure.pure, Except.pure]
    | cons b bs =>
      constructor
      · intro hl
        simp only [sameAll] at hl
        cases h : same a b with
        | error e => rw [h] at hl; simp [Bind.bind, Except.bind] at hl
        | ok r =>
          rw [h] at hl
          cases r with
          | false => simp [Bind.bind, Except.bind, Pure.pure, Except.pure] at hl
          | true =>
            simp only [Bind.bind, Except.bind, if_true] at hl
            intro p hp
            rw [List.zip_cons_cons, List.mem_cons] at hp
            rcases hp with hp | hp
            · rw [hp]; exact h
            · exact (ih bs).mp hl p hp
      · intro hall
        have h1 : same a b = .ok true := by
          apply hall (a, b)
          rw [List.zip_cons_cons]
          exact List.mem_cons_self _ _
        have h2 : sameAll as bs = .ok true := by
          apply (ih bs).mpr
          intro p hp
          apply hall p
          rw [List.zip_cons_cons]
          exact List.mem_cons_of_mem _ hp
        simp [sameAll, h1, h2, Bind.bind, Except.bind]

/-- A key that lookup finds is among the keys. -/
theorem lookup_mem_keys {l : List (String × PyVal)} {k : String} {v : PyVal}
    (h : l.lookup k = some v) : k ∈ dictKeys l := by
  induction l with
  | nil => simp [List.lookup] at h
  | cons e rest ih =>
    obtain ⟨a, b⟩ := e
    simp only [List.lookup] at h
    split at h
    · next hbeq =>
      simp only [dictKeys, List.map_cons, List.mem_cons]
      exact Or.inl (eq_of_beq hbeq)
    · next hbeq =>
      simp only [dictKeys, List.map_cons, List.mem_cons]
      exact Or.inr (ih h)

/-- Lookup succeeds on every key of the list. -/
theorem mem_keys_lookup {l : List (String × PyVal)} {k : String}
    (h : k ∈ dictKeys l) : ∃ v, l.lookup k = some v := by
  induction l with
  | nil => simp [dictKeys] at h
  | cons e rest ih =>
    obtain ⟨a, b⟩ := e
    simp only [dictKeys, List.map_cons, List.mem_cons] at h
    by_cases hk : k = a
    · subst hk
      exact ⟨b, by simp [List.lookup]⟩
    · have hmem : k ∈ dictKeys rest := by
        rcases h with h | h
        · exact absurd h hk
        · exact h
      obtain ⟨v, hv⟩ := ih hmem
      have hba : (k == a) = false := beq_eq_false_iff_ne.mpr hk
      exact ⟨v, by simp [List.lookup, hba, hv]⟩

/-- `sameDict` returns ok True exactly when `same` holds between the two
looked-up values of every key of the first dict, provided the first
dict's keys are distinct (a Python dict invariant) and every one of them
is present in the second dict. -/
theorem sameDict_ok_true_iff : ∀ (aes bes : List (String × PyVal)),
    (dictKeys aes).Nodup →
    (∀ k ∈ dictKeys aes, ∃ vb, bes.lookup k = some vb) →
    (sameDict aes bes = .ok true ↔
      ∀ k va vb, aes.lookup k = some va → bes.lookup k = some vb →
        same va vb = .ok true) := by
  intro aes
  induction aes with
  | nil =>
    intro bes hnd hb
    simp only [sameDict]
    constructor
    · intro _ k va vb hva _
      simp [List.lookup] at hva
    · intro _
      rfl
  | cons e rest ih =>
    obtain ⟨k0, v0⟩ := e
    intro bes hnd hb
    have hk0 : k0 ∈ dictKeys ((k0, v0) :: rest) := by
      simp [dictKeys]
    obtain ⟨vb0, hvb0⟩ := hb k0 hk0
    have hndcons := List.nodup_cons.mp (show (k0 :: dictKeys rest).Nodup from hnd)
    have hk0notin : k0 ∉ dictKeys rest := hndcons.1
    have hnd' : (dictKeys rest).Nodup := hndcons.2
    have hb' : ∀ k ∈ dictKeys rest, ∃ vb, bes.lookup k = some vb := by
      intro k hk
      apply hb k
      simp only [dictKeys, List.map_cons, List.mem_cons]
      exact Or.inr hk
    have hva0 : List.lookup k0 ((k0, v0) :: rest) = some v0 := by
      simp [List.lookup]
    simp only [sameDict]
    rw [hvb0]
    cases h : same v0 vb0 with
    | error e0 =>
      simp only [h, Bind.bind, Except.bind]
      constructor
      · intro hc
        exact absurd hc (by simp)
      · intro hall
        exfalso
        have hcontra := hall k0 v0 vb0 hva0 hvb0
        rw [h] at hcontra
        exact Except.noConfusion hcontra
    | ok r =>
      cases r with
      | false =>
        simp only [h, Bind.bind, Except.bind, Bool.false_eq_true, if_false]
        constructor
        · intro hc
          simp [Pure.pure, Except.pure] at hc
        · intro hall
          exfalso
          have hcontra := hall k0 v0 vb0 hva0 hvb0
          rw [h] at hcontra
          simp at hcontra
      | true =>
        simp only [h, Bind.bind, Except.bind, if_true]
        rw [ih bes hnd' hb']
        constructor
        · intro hrest k va vb hva hvb
          by_cases hk : k = k0
          · subst hk
            have hv0 : va = v0 := by
              rw [hva0] at hva
              exact (Option.some.inj hva).symm
            have hvb0eq : vb = vb0 := by
              rw [hvb0] at hvb
              exact (Option.some.inj hvb).symm
            rw [hv0, hvb0eq]
            exact h
          · have hba : (k == k0) = false := beq_eq_false_iff_ne.mpr hk
            have hva' : rest.lookup k = some va := by
              simpa [List.lookup, hba] using hva
            exact hrest k va vb hva' hvb
        · intro hall k va vb hva hvb
          have hkmem : k ∈ dictKeys rest := lookup_mem_keys hva
          have hkne : k ≠ k0 := fun hEq => hk0notin (hEq ▸ hkmem)
          have hba : (k == k0) = false := beq_eq_false_iff_ne.mpr hkne
          apply hall k va vb _ hvb
          simp [List.lookup, hba, hva]

/-- `reduceList` is `mapM` of the reduction over the list. -/
theorem reduceList_eq_mapM :
    ∀ xs : List PyVal, reduceList xs = xs.mapM reduce_to_scalar_loss := by
  intro xs
  rw [← List.mapM'_eq_mapM]
  induction xs with
  | nil => simp [reduceList, List.mapM']
  | cons x xs ih =>
    simp only [reduceList, List.mapM']
    rw [← ih]

/-- `reduceVals` is `mapM` of the reduction over the dict's values. -/
theorem reduceVals_eq_mapM :
    ∀ es : List (String × PyVal),
      reduceVals es = (es.map Prod.snd).mapM reduce_to_scalar_loss := by
  intro es
  rw [← List.mapM'_eq_mapM]
  induction es with
  | nil => simp [reduceVals, List.mapM']
  | cons e es ih =>
    obtain ⟨k, v⟩ := e
    simp only [reduceVals, List.map_cons, List.mapM']
    rw [← ih]

/-- The digits after the decimal point are never empty, and the final
character is the digit character of the last scaled digit. -/
theorem fracDigits_getLast (k n : Nat) :
    (fracDigits k (n + 1)).getLast? = some (Nat.digitChar (k % 10)) := by
  simp [fracDigits, List.getLast?_concat]

/-- A fixed-point formatted rational with positive precision ends in a
decimal digit character. -/
theorem pyFormatChars_getLast (x : ℚ) (n : Nat) :
    ∃ d, d < 10 ∧ (pyFormatChars x (n + 1)).getLast? = some (Nat.digitChar d) := by
  refine ⟨(pyRound (x * ((10 : ℚ) ^ (n + 1)))).natAbs % 10 ^ (n + 1) % 10,
    Nat.mod_lt _ (by norm_num), ?_⟩
  simp only [pyFormatChars, Nat.succ_ne_zero, if_false, List.append_assoc]
  rw [List.getLast?_append, List.getLast?_append, List.getLast?_append,
    fracDigits_getLast]
  rfl

/-- No decimal digit character is the letter E. -/
theorem digitChar_ne_E : ∀ d < 10, Nat.digitChar d ≠ 'E' := by decide

/-- A nonempty suffix determines the last element. -/
theorem suffix_getLast {α : Type} {l₁ l₂ : List α} (h : l₁.IsSuffix l₂)
    (hne : l₁ ≠ []) : l₂.getLast? = l₁.getLast? := by
  obtain ⟨t, rfl⟩ := h
  rw [List.getLast?_append]
  cases hl : l₁.getLast? with
  | none => exact absurd (List.getLast?_eq_none_iff.mp hl) hne
  | some a => rfl

/-- When the fuel evaluator agrees with `same` on every element of the
list, the fuel loop agrees with `sameAll`. -/
theorem sameAllF_eq (n : Nat) :
    ∀ (as bs : List PyVal),
      (∀ a ∈ as, ∀ b, sameF n a b = some (same a b)) →
      sameAllF n as bs = some (sameAll as bs) := by
  intro as
  induction as with
  | nil => intro bs h; cases bs <;> simp [sameAllF, sameAll]
  | cons a as ih =>
    intro bs h
    cases bs with
    | nil => simp [sameAllF, sameAll]
    | cons b bs =>
      have ha := h a (List.mem_cons_self a as) b
      simp only [sameAllF, sameAll, ha]
      cases hs : same a b with
      | error e => simp [hs, Bind.bind, Except.bind]
      | ok r =>
        cases r with
        | false => simp [hs, Bind.bind, Except.bind]
        | true =>
          simp only [hs, Bind.bind, Except.bind, if_true]
          exact ih bs (fun x hx y => h x (List.mem_cons_of_mem _ hx) y)

/-- When the fuel evaluator agrees with `same` on every entry value of
the first dict, the fuel loop agrees with `sameDict`. -/
theorem sameDictF_eq (n : Nat) :
    ∀ (aes bes : List (String × PyVal)),
      (∀ e ∈ aes, ∀ b, sameF n e.2 b = some (same e.2 b)) →
      sameDictF n aes bes = some (sameDict aes bes) := by
  intro aes
  induction aes with
  | nil => intro bes h; simp [sameDictF, sameDict]
  | cons e rest ih =>
    obtain ⟨k, va⟩ := e
    intro bes h
    cases hlook : bes.lookup k with
    | none => simp [sameDictF, sameDict, hlook]
    | some vb =>
      have ha := h (k, va) (List.mem_cons_self _ rest) vb
      simp only [sameDictF, sameDict, hlook, ha]
      cases hs : same va vb with
      | error e0 => simp [hs, Bind.bind, Except.bind]
      | ok r =>
        cases r with
        | false => simp [hs, Bind.bind, Except.bind]
        | true =>
          simp only [hs, Bind.bind, Except.bind, if_true]
          exact ih bes (fun x hx y => h x (List.mem_cons_of_mem _ hx) y)

/-- When the fuel evaluator agrees with `same` on every attribute value
of the first object, the fuel loop agrees with `sameAttrs`. -/
theorem sameAttrsF_eq (n : Nat) :
    ∀ (aattrs battrs : List (String × PyVal)),
      (∀ e ∈ aattrs, ∀ b, sameF n e.2 b = some (same e.2 b)) →
      sameAttrsF n aattrs battrs = some (sameAttrs aattrs battrs) := by
  intro aattrs
  induction aattrs with
  | nil => intro battrs h; simp [sameAttrsF, sameAttrs]
  | cons e rest ih =>
    obtain ⟨k, va⟩ := e
    intro battrs h
    cases hlook : battrs.lookup k with
    | none => simp [sameAttrsF, sameAttrs, hlook]
    | some vb =>
      have ha := h (k, va) (List.mem_cons_self _ rest) vb
      simp only [sameAttrsF, sameAttrs, hlook, ha]
      cases hs : same va vb with
      | error e0 => simp [hs, Bind.bind, Except.bind]
      | ok r =>
        cases r with
        | false => simp [hs, Bind.bind, Except.bind]
        | true =>
          simp only [hs, Bind.bind, Except.bind, if_true]
          exact ih battrs (fun x hx y => h x (List.mem_cons_of_mem _ hx) y)

/-- With fuel at least the structural size of the left value, the fuel
evaluator of `same` finishes and returns the value of `same`. -/
theorem sameF_eq_same :
    ∀ (n : Nat) (a b : PyVal), sizeOf a ≤ n → sameF n a b = some (same a b) := by
  intro n
  induction n with
  | zero =>
    intro a b h
    exfalso
    cases a <;> simp at h
  | succ n ih =>
    intro a b hsize
    have hseq : ∀ (xs : List PyVal), sizeOf xs ≤ n →
        ∀ x ∈ xs, ∀ y, sameF n x y = some (same x y) := by
      intro xs hxs x hx y
      apply ih
      have h1 : sizeOf x < sizeOf xs := List.sizeOf_lt_of_mem hx
      omega
    have hent : ∀ (es : List (String × PyVal)), sizeOf es ≤ n →
        ∀ e ∈ es, ∀ y, sameF n e.2 y = some (same e.2 y) := by
      intro es hes e he y
      apply ih
      have h1 : sizeOf e < sizeOf es := List.sizeOf_lt_of_mem he
      obtain ⟨k, v⟩ := e
      simp only [Prod.mk.sizeOf_spec] at h1
      simp only []
      omega
    cases a with
    | list as =>
      have hn : sizeOf as ≤ n := by simp at hsize; omega
      cases b <;> simp only [sameF, same] <;> try rfl
      all_goals split
      all_goals try rfl
      all_goals exact sameAllF_eq n as _ (hseq as hn)
    | tuple as =>
      have hn : sizeOf as ≤ n := by simp at hsize; omega
      cases b <;> simp only [sameF, same] <;> try rfl
      all_goals split
      all_goals try rfl
      all_goals exact sameAllF_eq n as _ (hseq as hn)
    | paramList as =>
      have hn : sizeOf as ≤ n := by simp at hsize; omega
      cases b <;> simp only [sameF, same] <;> try rfl
      all_goals split
      all_goals try rfl
      all_goals exact sameAllF_eq n as _ (hseq as hn)
    | size as =>
      have hn : sizeOf as ≤ n := by simp at hsize; omega
      cases b <;> simp only [sameF, same] <;> try rfl
      all_goals split
      all_goals try rfl
      all_goals exact sameAllF_eq n as _ (hseq as hn)
    | dict aes =>
      have hn : sizeOf aes ≤ n := by simp at hsize; omega
      cases b <;> simp only [sameF, same]
      all_goals split
      all_goals try rfl
      all_goals exact sameDictF_eq n aes _ (hent aes hn)
    | tensor t => cases b <;> simp [sameF, same]
    | int m => cases b <;> simp [sameF, same]
    | float q => cases b <;> simp [sameF, same]
    | bool v => cases b <;> simp [sameF, same]
    | none => cases b <;> simp [sameF, same]
    | device d => cases b <;> simp [sameF, same]
    | obj an aattrs =>
      have hn : sizeOf aattrs ≤ n := by simp at hsize; omega
      cases b <;> simp only [sameF, same] <;> split <;> try rfl
      all_goals try split
      all_goals try rfl
      all_goals exact sameAttrsF_eq n aattrs _ (hent aattrs hn)

/-! Claim theorems. -/

/-- C6: `same` terminates on every pair of finite inputs: the recursion
of `same` only descends into strictly smaller sub-structures, so for each
pair of values there is a fuel bound (the structural size of the first
value) within which the fuel-indexed evaluator `sameF` bottoms out, and
its result is the value of the total function `same`. -/
theorem same_total (a b : PyVal) : ∃ n, sameF n a b = some (same a b) :=
  ⟨sizeOf a, sameF_eq_same (sizeOf a) a b le_rfl⟩

/-- C8: `format_speedup` returns "ERROR" whenever is_correct is False,
regardless of speedup and pvalue; when is_correct is True its result ends
in "SAME" exactly when pvalue exceeds pvalue_threshold, and otherwise it
is the formatted speedup followed by "x p=" and the formatted pvalue. -/
theorem format_speedup_spec (speedup pvalue pvalue_threshold : ℚ) :
    (format_speedup speedup pvalue false pvalue_threshold = "ERROR") ∧
    (strEndsIn (format_speedup speedup pvalue true pvalue_threshold) "SAME" ↔
      pvalue > pvalue_threshold) ∧
    (¬ pvalue > pvalue_threshold →
      format_speedup speedup pvalue true pvalue_threshold =
        pyFormatF speedup 3 ++ "x p=" ++ pyFormatF pvalue 2) := by
  refine ⟨by simp [format_speedup], ?_, ?_⟩
  · by_cases h : pvalue > pvalue_threshold
    · have hfmt : format_speedup speedup pvalue true pvalue_threshold =
          pyFormatF speedup 3 ++ "x SAME" := by
        simp [format_speedup, h]
      rw [hfmt]
      constructor
      · intro _
        exact h
      · intro _
        refine ⟨(pyFormatF speedup 3).data ++ ['x', ' '], ?_⟩
        rw [String.data_append, List.append_assoc]
        rfl
    · have hfmt : format_speedup speedup pvalue true pvalue_threshold =
          pyFormatF speedup 3 ++ "x p=" ++ pyFormatF pvalue 2 := by
        simp [format_speedup, h]
      rw [hfmt]
      constructor
      · intro hS
        exfalso
        obtain ⟨d, hd, hlast⟩ := pyFormatChars_getLast pvalue 1
        norm_num at hlast
        have hlast2 :
            ((pyFormatF speedup 3 ++ "x p=" ++ pyFormatF pvalue 2)).data.getLast? =
              some (Nat.digitChar d) := by
          rw [String.data_append, List.getLast?_append]
          rw [show (pyFormatF pvalue 2).data = pyFormatChars pvalue 2 from rfl]
          rw [hlast]
          rfl
        have hE := suffix_getLast hS (by simp)
        rw [hlast2] at hE
        have hcontra : Nat.digitChar d = 'E' := by
          have hsome : some (Nat.digitChar d) = "SAME".data.getLast? := hE
          simpa using hsome
        exact digitChar_ne_E d hd hcontra
      · intro hc
        exact absurd hc h
  · intro h
    simp [format_speedup, h]

/-- Witness for C8 instantiated at speedup 3/2, pvalue 1/20,
threshold 1/10. -/
theorem format_speedup_spec_witness :
    (format_speedup (3/2) (1/20) false (1/10) = "ERROR") ∧
    (strEndsIn (format_speedup (3/2) (1/20) true (1/10)) "SAME" ↔
      (1/20 : ℚ) > (1/10 : ℚ)) ∧
    (¬ (1/20 : ℚ) > (1/10 : ℚ) →
      format_speedup (3/2) (1/20) true (1/10) =
        pyFormatF (3/2) 3 ++ "x p=" ++ pyFormatF (1/20) 2) :=
  format_speedup_spec (3/2) (1/20) (1/10)

/-- C4: `reduce_to_scalar_loss` maps a tensor to the sum of its elements,
a tuple to the sum of the recursive reduction of its elements, and a dict
to the sum of the recursive reduction of its values (the first failing
element propagating its exception, as in the Python list comprehension). -/
theorem reduce_to_scalar_loss_spec (t : Tensor) (xs : List PyVal)
    (es : List (String × PyVal)) :
    reduce_to_scalar_loss (.tensor t) = .ok t.data.sum ∧
    reduce_to_scalar_loss (.tuple xs) =
      (xs.mapM reduce_to_scalar_loss).map List.sum ∧
    reduce_to_scalar_loss (.dict es) =
      ((es.map Prod.snd).mapM reduce_to_scalar_loss).map List.sum := by
  refine ⟨by simp [reduce_to_scalar_loss, Pure.pure, Except.pure], ?_, ?_⟩
  · simp only [reduce_to_scalar_loss]
    rw [reduceList_eq_mapM]
    cases hm : xs.mapM reduce_to_scalar_loss with
    | error e => simp [hm, Bind.bind, Except.bind, Except.map]
    | ok vs => simp [hm, Bind.bind, Except.bind, Except.map, Pure.pure, Except.pure]
  · simp only [reduce_to_scalar_loss]
    rw [reduceVals_eq_mapM]
    cases hm : (es.map Prod.snd).mapM reduce_to_scalar_loss with
    | error e => simp [hm, Bind.bind, Except.bind, Except.map]
    | ok vs => simp [hm, Bind.bind, Except.bind, Except.map, Pure.pure, Except.pure]

/-- C2: for a list, tuple, ParameterList or Size input a and a list or
tuple input b, `same(a, b)` returns True exactly when a and b have equal
length and `same` returns True on every pair of corresponding elements. -/
theorem same_seq_iff (a b : PyVal) (as bs : List PyVal)
    (ha : seqElems a = some as) (hb : listTupleElems b = some bs) :
    (same a b = .ok true ↔
      as.length = bs.length ∧ ∀ p ∈ as.zip bs, same p.1 p.2 = .ok true) := by
  have key : ∀ (xs ys : List PyVal),
      ((if xs.length = ys.length then sameAll xs ys else pure false) = .ok true ↔
        xs.length = ys.length ∧ ∀ p ∈ xs.zip ys, same p.1 p.2 = .ok true) := by
    intro xs ys
    by_cases h : xs.length = ys.length
    · simp [h, sameAll_ok_true_iff]
    · simp [h, Pure.pure, Except.pure]
  cases a <;> cases b <;> simp only [seqElems, listTupleElems] at ha hb
  all_goals try exact Option.noConfusion ha
  all_goals try exact Option.noConfusion hb
  all_goals obtain rfl := Option.some.inj ha
  all_goals obtain rfl := Option.some.inj hb
  all_goals simp only [same]
  all_goals exact key _ _

/-- C5: for two dict inputs whose key sets are equal, `same` returns True
exactly when `same(a[k], b[k])` returns True for every key k; for two dict
inputs whose key sets differ, `same` does not return False but raises an
AssertionError. The first dict's keys are assumed distinct, which every
Python dict satisfies. -/
theorem same_dict_spec (aes bes : List (String × PyVal))
    (hna : (dictKeys aes).Nodup) :
    (keySetEq (dictKeys aes) (dictKeys bes) = true →
      (same (.dict aes) (.dict bes) = .ok true ↔
        ∀ k va vb, aes.lookup k = some va → bes.lookup k = some vb →
          same va vb = .ok true)) ∧
    (keySetEq (dictKeys aes) (dictKeys bes) = false →
      same (.dict aes) (.dict bes) = .error (.assertionError "keys mismatch")) := by
  constructor
  · intro hkeys
    have hsub : ∀ k ∈ dictKeys aes, k ∈ dictKeys bes := by
      have hall := hkeys
      simp only [keySetEq, Bool.and_eq_true, List.all_eq_true] at hall
      intro k hk
      simpa using hall.1 k hk
    have hb : ∀ k ∈ dictKeys aes, ∃ vb, bes.lookup k = some vb := by
      intro k hk
      exact mem_keys_lookup (hsub k hk)
    simp only [same, hkeys, if_true]
    exact sameDict_ok_true_iff aes bes hna hb
  · intro hkeys
    simp [same, hkeys]

/-- Witness for C5: two dicts with the same two keys in different order,
and the key-set hypothesis discharged on them. -/
theorem same_dict_spec_witness :
    (keySetEq (dictKeys [("a", PyVal.int 1), ("b", PyVal.bool true)])
        (dictKeys [("b", PyVal.int 1), ("a", PyVal.int 1)]) = true →
      (same (.dict [("a", PyVal.int 1), ("b", PyVal.bool true)])
          (.dict [("b", PyVal.int 1), ("a", PyVal.int 1)]) = .ok true ↔
        ∀ k va vb,
          List.lookup k [("a", PyVal.int 1), ("b", PyVal.bool true)] = some va →
          List.lookup k [("b", PyVal.int 1), ("a", PyVal.int 1)] = some vb →
          same va vb = .ok true)) ∧
    (keySetEq (dictKeys [("a", PyVal.int 1), ("b", PyVal.bool true)])
        (dictKeys [("b", PyVal.int 1), ("a", PyVal.int 1)]) = false →
      same (.dict [("a", PyVal.int 1), ("b", PyVal.bool true)])
          (.dict [("b", PyVal.int 1), ("a", PyVal.int 1)]) =
        .error (.assertionError "keys mismatch")) :=
  same_dict_spec [("a", PyVal.int 1), ("b", PyVal.bool true)]
    [("b", PyVal.int 1), ("a", PyVal.int 1)] (by decide)

/-- Witness for C2: a Size compared against a list of equal elements. -/
theorem same_seq_iff_witness :
    (same (.size [.int 2, .int 3]) (.list [.int 2, .int 3]) = .ok true ↔
      ([PyVal.int 2, PyVal.int 3].length = [PyVal.int 2, PyVal.int 3].length ∧
        ∀ p ∈ List.zip [PyVal.int 2, PyVal.int 3] [PyVal.int 2, PyVal.int 3],
          same p.1 p.2 = .ok true)) :=
  same_seq_iff (.size [.int 2, .int 3]) (.list [.int 2, .int 3])
    [PyVal.int 2, PyVal.int 3] [PyVal.int 2, PyVal.int 3] rfl rfl

/-- C7: `clone_me(None)` returns None, without attempting to detach or
clone, so callers that pass absent gradients get None back unchanged. -/
theorem clone_me_none : clone_me Option.none = Option.none := rfl

/-- C9: `debug_insert_nops` returns None for every frame whose code
object is a generator; only for non-generator frames does it transform
the code and return a GuardedCode wrapping the transformed code object. -/
theorem debug_insert_nops_spec (frame : Frame) (cache_size : Nat) :
    (is_generator frame.f_code = true →
      debug_insert_nops frame cache_size = Option.none) ∧
    (is_generator frame.f_code = false →
      debug_insert_nops frame cache_size =
        some { code := transform_code_object frame.f_code insert_nops }) := by
  constructor <;> intro h <;> simp [debug_insert_nops, h]

/-- Witness for C9 at two concrete frames, one generator, one not. -/
theorem debug_insert_nops_spec_witness :
    debug_insert_nops
      (Frame.mk (CodeObject.mk [Instruction.mk "RETURN_VALUE"] true)) 1 =
        Option.none ∧
    debug_insert_nops
      (Frame.mk (CodeObject.mk [Instruction.mk "RETURN_VALUE"] false)) 1 =
        some (GuardedCode.mk (transform_code_object
          (CodeObject.mk [Instruction.mk "RETURN_VALUE"] false) insert_nops)) :=
  ⟨(debug_insert_nops_spec
      (Frame.mk (CodeObject.mk [Instruction.mk "RETURN_VALUE"] true)) 1).1 rfl,
   (debug_insert_nops_spec
      (Frame.mk (CodeObject.mk [Instruction.mk "RETURN_VALUE"] false)) 1).2 rfl⟩

/-- C1 counterexample: the tensors with values [0] and [1] differ far
beyond the tolerance of the (commented-out) allclose check at lines 85-87
with atol = rtol = 1e-4, yet `same` returns True on them, so `same` does
not return True exactly when the tensors approximately match and never
returns False on tensor inputs. -/
theorem same_tensor_counterexample :
    allclose { data := [0] } { data := [1] } (1/10000) (1/10000) = false ∧
    same (.tensor { data := [0] }) (.tensor { data := [1] }) = .ok true := by
  constructor
  · norm_num [allclose]
  · simp [same, Pure.pure, Except.pure]

/-- C1 amended: on every pair of tensor inputs, `same` computes its
diagnostics only for printing and returns True unconditionally
(testing.py line 93). -/
theorem same_tensor_always_true (t u : Tensor) :
    same (.tensor t) (.tensor u) = .ok true := by
  simp [same, Pure.pure, Except.pure]

/-- C3: a fresh CompileCounter has frame_count = 0 and op_count = 0;
after being called on each module of a list, frame_count equals the
number of calls and op_count is the total number of graph nodes whose op
string contains "call"; moreover each individual call increments
frame_count by exactly 1, increments op_count by the number of "call"
nodes of the passed graph, and returns the module's forward function. -/
theorem compileCounter_spec {F : Type} (gms : List (GraphModule F))
    (s : CompileCounter) (gm : GraphModule F) :
    CompileCounter.init.frame_count = 0 ∧
    CompileCounter.init.op_count = 0 ∧
    (runCompileCounter gms).frame_count = gms.length ∧
    (runCompileCounter gms).op_count =
      (gms.map (fun g => g.graph.nodes.countP
        (fun node => strContains node.op "call"))).sum ∧
    (CompileCounter.call s gm).1.frame_count = s.frame_count + 1 ∧
    (CompileCounter.call s gm).1.op_count = s.op_count +
      gm.graph.nodes.countP (fun node => strContains node.op "call") ∧
    (CompileCounter.call s gm).2 = gm.forward := by
  refine ⟨rfl, rfl, ?_, ?_, ?_, ?_, ?_⟩
  · simp only [runCompileCounter, compileCounter_fold_eq, CompileCounter.init]
    simp
  · simp only [runCompileCounter, compileCounter_fold_eq, CompileCounter.init]
    simp
  · rw [compileCounter_call_eq]
  · rw [compileCounter_call_eq]
  · rw [compileCounter_call_eq]

end TorchdynamoTesting
